import Mathlib

/-!
Verification of the luxfi/pricing cache/fetch core and scoring engine
(src/main.go).  Go `float64` values are modelled by `GoFloat`: a rational
for finite values plus the IEEE-754 special values `+Inf`, `-Inf`, `NaN`.
Finite arithmetic is exact (rounding is not modelled); the special-value
behaviour of division and of the ordered comparisons follows IEEE-754,
which is what Go implements.  Every concrete input evaluated in this file
is exactly representable in binary64, so the rational model agrees with
the Go program at those points.  Go `time.Time`/`time.Duration` values are
modelled as `Int` nanoseconds.
-/

/-- Model of a Go `float64`: finite rational, infinities, or NaN. -/
inductive GoFloat where
  | finite (q : ℚ)
  | posInf
  | negInf
  | nan
deriving DecidableEq, Repr

/-- IEEE-754 `<` as Go evaluates it on `float64`: any comparison with NaN
is false; `-Inf` is below every other value; `+Inf` above. -/
def GoFloat.lt : GoFloat → GoFloat → Bool
  | .nan, _ => false
  | _, .nan => false
  | .negInf, .negInf => false
  | .negInf, _ => true
  | _, .negInf => false
  | .posInf, _ => false
  | .finite _, .posInf => true
  | .finite a, .finite b => a < b

/-- Go `x > y` on `float64` (strict, NaN-false). -/
def GoFloat.gt (a b : GoFloat) : Bool := GoFloat.lt b a

/-- Go `x >= y` on `float64`: false whenever either side is NaN. -/
def GoFloat.ge : GoFloat → GoFloat → Bool
  | .nan, _ => false
  | _, .nan => false
  | .posInf, _ => true
  | _, .posInf => false
  | _, .negInf => true
  | .negInf, .finite _ => false
  | .finite a, .finite b => b ≤ a

/-- Go `float64` division per IEEE-754: `x/0` is `±Inf` for nonzero finite
`x`, `0/0` is NaN, `Inf/Inf` is NaN, `finite/Inf` is `0`.  A finite
quotient is taken exactly (rounding not modelled). -/
def GoFloat.div : GoFloat → GoFloat → GoFloat
  | .nan, _ => .nan
  | _, .nan => .nan
  | .posInf, .posInf => .nan
  | .posInf, .negInf => .nan
  | .negInf, .posInf => .nan
  | .negInf, .negInf => .nan
  | .posInf, .finite b => if b < 0 then .negInf else .posInf
  | .negInf, .finite b => if b < 0 then .posInf else .negInf
  | .finite _, .posInf => .finite 0
  | .finite _, .negInf => .finite 0
  | .finite a, .finite b =>
      if b = 0 then
        (if a = 0 then .nan else if 0 < a then .posInf else .negInf)
      else .finite (a / b)

/-- Strict float `<` is asymmetric (holds also in the presence of NaN). -/
theorem GoFloat.lt_asymm (a b : GoFloat) : GoFloat.lt a b = true → GoFloat.lt b a = false := by
  cases a <;> cases b <;> simp [GoFloat.lt] <;> intro h <;> exact le_of_lt h

/-- Strict float `<` is transitive. -/
theorem GoFloat.lt_trans (a b c : GoFloat) :
    GoFloat.lt a b = true → GoFloat.lt b c = true → GoFloat.lt a c = true := by
  cases a <;> cases b <;> cases c <;> simp [GoFloat.lt]
  exact fun h h' => h.trans h'

/-- Cache TTL: `cacheTTL = 1 * time.Hour` from src/main.go, in nanoseconds. -/
def cacheTTL : Int := 3600000000000

/-- CachedPrice (src/main.go lines 41-48): a single cached price entry. -/
structure CachedPrice where
  price : GoFloat
  currency : String
  updatedAt : Int
  change24h : GoFloat
  marketCap : GoFloat
  volume24h : GoFloat
deriving DecidableEq, Repr

/-- PriceResponse (src/main.go lines 51-62): the API response format.
Fields omitted from a Go composite literal take the zero value, so a
response built without `Symbol`/`Name` carries empty strings. -/
structure PriceResponse where
  id : String
  symbol : String
  name : String
  price : GoFloat
  currency : String
  change24h : GoFloat
  marketCap : GoFloat
  volume24h : GoFloat
  updatedAt : Int
  cached : Bool
deriving DecidableEq, Repr

/-- CoinGeckoPrice (src/main.go lines 71-96), restricted to the fields the
embedded operations read (the remaining fields are decoded but only copied
verbatim into responses that no claim inspects). -/
structure CoinGeckoPrice where
  id : String
  symbol : String
  name : String
  currentPrice : GoFloat
  marketCap : GoFloat
  marketCapRank : Int
  totalVolume : GoFloat
  priceChangePercentage24h : GoFloat
  athChangePercentage : GoFloat
deriving DecidableEq, Repr

/-- StakingData (src/main.go lines 99-111), restricted to the fields read
by `calculateScore` and the market handler. -/
structure StakingData where
  apy : GoFloat
  stakingRatio : GoFloat
  validatorFee : GoFloat
  minStake : GoFloat
  unbondingDays : Int
deriving DecidableEq, Repr

/-- Errors of `fetchFromCoinGecko` / `fetchMultipleFromCoinGecko`
(src/main.go lines 350-416): transport failure, non-200 status, JSON
decode failure, or an empty result array ("token not found"). -/
inductive FetchError where
  | transport
  | status (code : Int) (body : String)
  | decode
  | notFound (tokenID : String)
deriving DecidableEq, Repr

/-- Association-list model of a Go `map[string]T`; insertion replaces the
binding of an existing key. -/
def assocInsert {β : Type} : List (String × β) → String → β → List (String × β)
  | [], k, v => [(k, v)]
  | (k', v') :: rest, k, v =>
      if k' = k then (k, v) :: rest else (k', v') :: assocInsert rest k v

/-- Lookup in the association-list model of a Go map. -/
def assocLookup {β : Type} : List (String × β) → String → Option β
  | [], _ => none
  | (k', v) :: rest, k => if k' = k then some v else assocLookup rest k

theorem assocLookup_insert {β : Type} (m : List (String × β)) (k a : String) (v : β) :
    assocLookup (assocInsert m k v) a = if k = a then some v else assocLookup m a := by
  induction m with
  | nil =>
      by_cases h : k = a <;> simp [assocInsert, assocLookup, h]
  | cons p rest ih =>
      obtain ⟨k', v'⟩ := p
      by_cases hk : k' = k
      · subst hk
        by_cases h : k' = a <;> simp [assocInsert, assocLookup, h]
      · by_cases h : k' = a
        · subst h
          have : ¬ k = k' := fun he => hk he.symm
          simp [assocInsert, assocLookup, hk, this]
        · simp [assocInsert, assocLookup, hk, h, ih]

/-- The cache's `prices map[string]*CachedPrice` (src/main.go line 34). -/
def PriceMap : Type := List (String × CachedPrice)

/-- Cache key `fmt.Sprintf("%s:%s", tokenID, currency)` (src/main.go line 213). -/
def cacheKey (tokenID currency : String) : String := tokenID ++ ":" ++ currency

/-- The `PriceResponse` literal built from a cache entry; the same literal
appears at src/main.go lines 221-230, 238-247 and 295-304 (`Symbol` and
`Name` omitted, hence zero-valued `""`). -/
def priceRespFromCache (tokenID : String) (cached : CachedPrice) : PriceResponse :=
  { id := tokenID
    symbol := ""
    name := ""
    price := cached.price
    currency := cached.currency
    change24h := cached.change24h
    marketCap := cached.marketCap
    volume24h := cached.volume24h
    updatedAt := cached.updatedAt
    cached := true }

/-- The `CachedPrice` written back after a successful fetch
(src/main.go lines 254-261 and 320-327). -/
def cachedEntryOfFetch (now : Int) (currency : String) (p : CoinGeckoPrice) : CachedPrice :=
  { price := p.currentPrice
    currency := currency
    updatedAt := now
    change24h := p.priceChangePercentage24h
    marketCap := p.marketCap
    volume24h := p.totalVolume }

/-- The `PriceResponse` built directly from a fetched record
(src/main.go lines 264-275 and 330-341), flagged `Cached: false`. -/
def freshRespOfFetch (now : Int) (tokenID currency : String) (p : CoinGeckoPrice) : PriceResponse :=
  { id := tokenID
    symbol := p.symbol
    name := p.name
    price := p.currentPrice
    currency := currency
    change24h := p.priceChangePercentage24h
    marketCap := p.marketCap
    volume24h := p.totalVolume
    updatedAt := now
    cached := false }

/-- Lines 233-275 of `GetPrice`: the path taken when the cache gave no
fresh hit.  `cached?` is the result of the earlier lookup (line 217); on
fetch failure a stale entry, when present, is returned flagged cached
(lines 236-248), otherwise the fetch error propagates (line 249); on
success the entry is written back and a fresh response returned. -/
def getPriceFetchPath (prices : PriceMap) (now : Int) (tokenID currency : String)
    (cached? : Option CachedPrice) (fetch : Except FetchError CoinGeckoPrice) :
    Except FetchError PriceResponse × PriceMap :=
  match fetch with
  | .error e =>
      match cached? with
      | some cached => (Except.ok (priceRespFromCache tokenID cached), prices)
      | none => (Except.error e, prices)
  | .ok price =>
      (Except.ok (freshRespOfFetch now tokenID currency price),
       assocInsert prices (cacheKey tokenID currency) (cachedEntryOfFetch now currency price))

/-- GetPrice (src/main.go lines 211-276).  The upstream call is modelled
by the oracle argument `fetch`; `now` stands for the call's `time.Now()`.
Returns the (response | error) pair together with the updated cache. -/
def GetPrice (prices : PriceMap) (now : Int) (tokenID currency : String)
    (fetch : Except FetchError CoinGeckoPrice) :
    Except FetchError PriceResponse × PriceMap :=
  match assocLookup prices (cacheKey tokenID currency) with
  | some cached =>
      if now - cached.updatedAt < cacheTTL then
        (Except.ok (priceRespFromCache tokenID cached), prices)
      else
        getPriceFetchPath prices now tokenID currency (some cached) fetch
  | none => getPriceFetchPath prices now tokenID currency none fetch

/-- MultiPriceResponse (src/main.go lines 65-68); the `Prices` map is
modelled as an association list with Go-map insert semantics. -/
structure MultiPriceResponse where
  prices : List (String × PriceResponse)
  updatedAt : Int

/-- True iff the cache holds a fresh entry for `(id, currency)` at `now`
(the test at src/main.go lines 220 and 294). -/
def freshInCache (prices : PriceMap) (now : Int) (id currency : String) : Bool :=
  match assocLookup prices (cacheKey id currency) with
  | some cached => now - cached.updatedAt < cacheTTL
  | none => false

/-- One iteration of the first loop of `GetMultiplePrices`
(src/main.go lines 287-308): a fresh cache hit is added to the response
map flagged cached, any other identifier is appended to `toFetch`. -/
def cacheCheckStep (prices : PriceMap) (now : Int) (currency : String)
    (acc : List (String × PriceResponse) × List String) (id : String) :
    List (String × PriceResponse) × List String :=
  match assocLookup prices (cacheKey id currency) with
  | some cached =>
      if now - cached.updatedAt < cacheTTL then
        (assocInsert acc.1 id (priceRespFromCache id cached), acc.2)
      else (acc.1, acc.2 ++ [id])
  | none => (acc.1, acc.2 ++ [id])

/-- One iteration of the write-back loop of `GetMultiplePrices`
(src/main.go lines 316-342): each fetched record is written to the cache
and added to the response map flagged `Cached: false`. -/
def writeBackStep (now : Int) (currency : String)
    (acc : List (String × PriceResponse) × PriceMap) (p : CoinGeckoPrice) :
    List (String × PriceResponse) × PriceMap :=
  (assocInsert acc.1 p.id (freshRespOfFetch now p.id currency p),
   assocInsert acc.2 (cacheKey p.id currency) (cachedEntryOfFetch now currency p))

/-- GetMultiplePrices (src/main.go lines 279-347).  The single batch
upstream call is modelled by the oracle argument `fetchOutcome`, consulted
only when `toFetch` is non-empty.  On fetch failure the error is only
logged (line 314): the partial response is still returned and the function
never returns an error (`return response, nil`), hence the result is
always `Except.ok`. -/
def GetMultiplePrices (prices : PriceMap) (now : Int) (tokenIDs : List String)
    (currency : String) (fetchOutcome : Except FetchError (List CoinGeckoPrice)) :
    Except FetchError MultiPriceResponse × PriceMap :=
  let start : List (String × PriceResponse) × List String := ([], [])
  let phase1 := tokenIDs.foldl (cacheCheckStep prices now currency) start
  if phase1.2.isEmpty then
    (Except.ok { prices := phase1.1, updatedAt := now }, prices)
  else
    match fetchOutcome with
    | .error _ => (Except.ok { prices := phase1.1, updatedAt := now }, prices)
    | .ok fetched =>
        let phase2 := fetched.foldl (writeBackStep now currency) (phase1.1, prices)
        (Except.ok { prices := phase2.1, updatedAt := now }, phase2.2)

/-- ScoreData (src/main.go lines 136-142).  All scores assigned by
`calculateScore` are small integers whose float64 sums are exact, so the
fields are modelled as rationals. -/
structure ScoreData where
  marketScore : ℚ
  stakingScore : ℚ
  securityScore : ℚ
  adoptionScore : ℚ
  techScore : ℚ
deriving DecidableEq, Repr

/-- Market block of `calculateScore` (src/main.go lines 533-545): rank
brackets; note the first branch alone requires `MarketCapRank > 0`, so a
non-positive rank falls through to the `<= 25` branch. -/
def marketScoreOf (price : CoinGeckoPrice) : ℚ :=
  if price.marketCapRank > 0 ∧ price.marketCapRank ≤ 10 then 25
  else if price.marketCapRank ≤ 25 then 22
  else if price.marketCapRank ≤ 50 then 18
  else if price.marketCapRank ≤ 100 then 14
  else if price.marketCapRank ≤ 250 then 10
  else 5

/-- Staking block of `calculateScore` (src/main.go lines 548-562): zero
when `staking == nil`; otherwise APY brackets (inclusive `>=`) plus a +5
bonus when the staking ratio is at least 50. -/
def stakingScoreOf (staking : Option StakingData) : ℚ :=
  match staking with
  | none => 0
  | some st =>
      let base : ℚ :=
        if st.apy.ge (.finite 10) then 20
        else if st.apy.ge (.finite 5) then 15
        else if st.apy.ge (.finite 2) then 10
        else 5
      if st.stakingRatio.ge (.finite 50) then base + 5 else base

/-- Security block of `calculateScore` (src/main.go lines 565-573):
strict `>` market-cap brackets. -/
def securityScoreOf (price : CoinGeckoPrice) : ℚ :=
  if price.marketCap.gt (.finite 10000000000) then 20
  else if price.marketCap.gt (.finite 1000000000) then 16
  else if price.marketCap.gt (.finite 100000000) then 12
  else 8

/-- Adoption block of `calculateScore` (src/main.go lines 576-585):
`volumeToMcap := price.TotalVolume / price.MarketCap` performed with no
zero-divisor guard, then strict `>` brackets ($0.1$ etc. are the exact
rationals; the binary64 literals differ by less than any gap exercised). -/
def adoptionScoreOf (price : CoinGeckoPrice) : ℚ :=
  let volumeToMcap := price.totalVolume.div price.marketCap
  if volumeToMcap.gt (.finite (1/10)) then 15
  else if volumeToMcap.gt (.finite (1/20)) then 12
  else if volumeToMcap.gt (.finite (1/100)) then 9
  else 5

/-- Tech block of `calculateScore` (src/main.go lines 588-596): strict `>`
brackets on the (negative) percentage distance from the all-time high. -/
def techScoreOf (price : CoinGeckoPrice) : ℚ :=
  if price.athChangePercentage.gt (.finite (-20)) then 15
  else if price.athChangePercentage.gt (.finite (-50)) then 12
  else if price.athChangePercentage.gt (.finite (-80)) then 8
  else 4

/-- calculateScore (src/main.go lines 529-600): the five blocks above
followed by `total := market + staking + security + adoption + tech`.
The function reads nothing but its two arguments and writes no shared
state. -/
def calculateScore (price : CoinGeckoPrice) (staking : Option StakingData) :
    ℚ × ScoreData :=
  let breakdown : ScoreData :=
    { marketScore := marketScoreOf price
      stakingScore := stakingScoreOf staking
      securityScore := securityScoreOf price
      adoptionScore := adoptionScoreOf price
      techScore := techScoreOf price }
  (breakdown.marketScore + breakdown.stakingScore + breakdown.securityScore +
     breakdown.adoptionScore + breakdown.techScore, breakdown)

/-- State-passing form of a `calculateScore` call.  The Go function
references no package-level variable and performs no I/O (src/main.go
lines 529-600), so a call leaves the shared cache untouched: the state is
returned unchanged by construction of the translation. -/
def calculateScoreCall (σ : PriceMap) (price : CoinGeckoPrice)
    (staking : Option StakingData) : (ℚ × ScoreData) × PriceMap :=
  (calculateScore price staking, σ)

/-- MarketAsset (src/main.go lines 114-133), restricted to the fields the
sorting loop of `handleMarkets` reads (`Score`) plus the identifying
fields. -/
structure MarketAsset where
  id : String
  symbol : String
  name : String
  score : GoFloat
deriving DecidableEq, Repr

/-- Structural form of the inner sorting loop of `handleMarkets`
(src/main.go lines 683-687): with the element at position `i` as the
running candidate `x`, each later position `j` is compared against it;
when `assets[j].Score > assets[i].Score` the two are swapped, i.e. the
old candidate is left behind at position `j` and the element previously
at `j` becomes the candidate.  Returns the final candidate together with
the suffix as the loop leaves it. -/
def selectMaxAsset (x : MarketAsset) : List MarketAsset → MarketAsset × List MarketAsset
  | [] => (x, [])
  | y :: ys =>
      if y.score.gt x.score then
        let r := selectMaxAsset y ys
        (r.1, x :: r.2)
      else
        let r := selectMaxAsset x ys
        (r.1, y :: r.2)

/-- Fuel-indexed outer sorting loop of `handleMarkets` (src/main.go lines
682-688): iteration `i` of the outer loop runs the inner loop over the
suffix starting at `i` and never revisits positions before `i`.  The fuel
starts at the list length and bounds the recursion depth. -/
def sortGo : Nat → List MarketAsset → List MarketAsset
  | 0, _ => []
  | _ + 1, [] => []
  | n + 1, x :: xs =>
      let r := selectMaxAsset x xs
      r.1 :: sortGo n r.2

/-- The score-sorting pass of `handleMarkets` (src/main.go lines 681-688). -/
def sortAssetsByScore (assets : List MarketAsset) : List MarketAsset :=
  sortGo assets.length assets

/-- Generic concrete provider record used as the base of the concrete
inputs below (rank 300, $500M cap, $1M volume, 90% below ATH). -/
def baseRecord : CoinGeckoPrice :=
  { id := "token"
    symbol := "tkn"
    name := "Token"
    currentPrice := .finite 1
    marketCap := .finite 500000000
    marketCapRank := 300
    totalVolume := .finite 1000000
    priceChangePercentage24h := .finite 0
    athChangePercentage := .finite (-90) }

/-- Concrete record with a zero market cap and the given 24h volume. -/
def zeroMcapRecord (vol : ℚ) : CoinGeckoPrice :=
  { baseRecord with
    marketCap := .finite 0
    totalVolume := .finite vol }

/-- Concrete record with the given market-cap rank. -/
def rankRecord (r : Int) : CoinGeckoPrice :=
  { baseRecord with marketCapRank := r }

/-- Concrete record sitting exactly on the $10B security boundary, rank
exactly 10, volume-to-market-cap ratio exactly 0.10, ATH change exactly
-20: every one of these values is exactly representable in binary64 and
the quotient 10^9 / 10^10 is exact, so the rational model agrees with the
Go computation here. -/
def tenBillionRecord : CoinGeckoPrice :=
  { baseRecord with
    marketCap := .finite 10000000000
    marketCapRank := 10
    totalVolume := .finite 1000000000
    athChangePercentage := .finite (-20) }

/-- Concrete staking entry sitting exactly on the APY 10 and ratio 50
boundaries. -/
def boundaryStaking : StakingData :=
  { apy := .finite 10
    stakingRatio := .finite 50
    validatorFee := .finite 0
    minStake := .finite 0
    unbondingDays := 0 }

/-- Concrete cache entry written at time 0. -/
def entryEx : CachedPrice :=
  { price := .finite 97000
    currency := "usd"
    updatedAt := 0
    change24h := .finite 2
    marketCap := .finite 1900000000000
    volume24h := .finite 45000000000 }

/-- Concrete one-entry cache holding `entryEx` under `bitcoin:usd`. -/
def mapEx : PriceMap := [(cacheKey "bitcoin" "usd", entryEx)]

/-- Concrete assets for the sorting scenario: two tied scores (fetch order
`asA` before `asB`) and one higher score fetched last. -/
def asA : MarketAsset :=
  { id := "alpha", symbol := "AAA", name := "Alpha", score := .finite 2 }

/-- Second asset of the sorting scenario, tied with `asA`. -/
def asB : MarketAsset :=
  { id := "beta", symbol := "BBB", name := "Beta", score := .finite 2 }

/-- Third asset of the sorting scenario, strictly highest score. -/
def asC : MarketAsset :=
  { id := "gamma", symbol := "CCC", name := "Gamma", score := .finite 3 }

/-- The Market sub-score is always one of the bracket values in [5, 25]. -/
theorem marketScoreOf_bounds (p : CoinGeckoPrice) :
    5 ≤ marketScoreOf p ∧ marketScoreOf p ≤ 25 := by
  unfold marketScoreOf
  split_ifs <;> norm_num

/-- The Staking sub-score lies in [0, 25] (0 exactly when no entry). -/
theorem stakingScoreOf_bounds (st : Option StakingData) :
    0 ≤ stakingScoreOf st ∧ stakingScoreOf st ≤ 25 := by
  cases st with
  | none => simp [stakingScoreOf]
  | some sd =>
      dsimp only [stakingScoreOf]
      split_ifs <;> norm_num

/-- The Security sub-score lies in [8, 20]. -/
theorem securityScoreOf_bounds (p : CoinGeckoPrice) :
    8 ≤ securityScoreOf p ∧ securityScoreOf p ≤ 20 := by
  unfold securityScoreOf
  split_ifs <;> norm_num

/-- The Adoption sub-score lies in [5, 15] whatever the division yields. -/
theorem adoptionScoreOf_bounds (p : CoinGeckoPrice) :
    5 ≤ adoptionScoreOf p ∧ adoptionScoreOf p ≤ 15 := by
  unfold adoptionScoreOf
  dsimp only
  split_ifs <;> norm_num

/-- The Tech sub-score lies in [4, 15]. -/
theorem techScoreOf_bounds (p : CoinGeckoPrice) :
    4 ≤ techScoreOf p ∧ techScoreOf p ≤ 15 := by
  unfold techScoreOf
  split_ifs <;> norm_num

/-- C6: for every input record and optional staking entry, the total
returned by `calculateScore` equals the sum of the five breakdown fields,
and it lies between 22 = 5+0+8+5+4 and 100 = 25+25+20+15+15 inclusive
(here proved for all inputs, valid or not). -/
theorem calculateScore_total_sum_and_range (p : CoinGeckoPrice) (st : Option StakingData) :
    (calculateScore p st).1 =
      (calculateScore p st).2.marketScore + (calculateScore p st).2.stakingScore +
      (calculateScore p st).2.securityScore + (calculateScore p st).2.adoptionScore +
      (calculateScore p st).2.techScore ∧
    22 ≤ (calculateScore p st).1 ∧ (calculateScore p st).1 ≤ 100 := by
  refine ⟨rfl, ?_, ?_⟩ <;>
  · have h1 := marketScoreOf_bounds p
    have h2 := stakingScoreOf_bounds st
    have h3 := securityScoreOf_bounds p
    have h4 := adoptionScoreOf_bounds p
    have h5 := techScoreOf_bounds p
    simp only [calculateScore]
    linarith [h1.1, h1.2, h2.1, h2.2, h3.1, h3.2, h4.1, h4.2, h5.1, h5.2]

/-- C9: `calculateScore` is deterministic and side-effect free: in
state-passing form a call returns the shared cache state unchanged, two
calls on identical inputs return identical outputs, and the output does
not depend on the state at all. -/
theorem calculateScore_deterministic_and_stateless (σ : PriceMap)
    (p : CoinGeckoPrice) (st : Option StakingData) :
    (calculateScoreCall σ p st).2 = σ ∧
    (calculateScoreCall σ p st).1 = (calculateScoreCall σ p st).1 ∧
    ∀ σ' : PriceMap, (calculateScoreCall σ p st).1 = (calculateScoreCall σ' p st).1 :=
  ⟨rfl, rfl, fun _ => rfl⟩

/-- C2: evaluation of `calculateScore` at a zero market cap.  With any
positive 24h volume the unguarded Go division yields `+Inf`, `+Inf > 0.1`
holds, and the Adoption sub-score is 15 — not the claimed 5; only a zero
volume (`0/0 = NaN`, all comparisons false) lands in the 5 bracket.  The
division-by-zero guard the specification requires is absent from the
code. -/
theorem calculateScore_zero_market_cap_unguarded :
    (calculateScore (zeroMcapRecord 1) none).2.adoptionScore = 15 ∧
    (calculateScore (zeroMcapRecord 1) none).2.adoptionScore ≠ 5 ∧
    (calculateScore (zeroMcapRecord 0) none).2.adoptionScore = 5 := by
  decide

/-- C5 counterexample: a record with market-cap rank 0 (the claim says
rank 0 scores 5) receives Market sub-score 22, because rank 0 fails the
guarded first branch and then satisfies `MarketCapRank <= 25`. -/
theorem marketScore_rank_zero_counterexample :
    (calculateScore (rankRecord 0) none).2.marketScore = 22 ∧
    (calculateScore (rankRecord 0) none).2.marketScore ≠ 5 := by
  decide

/-- C5 amended: the Market sub-score is the step function 25 on ranks
[1,10], 22 on (10,25] and likewise on every rank ≤ 0 (unranked assets
are not sent to the lowest bracket), 18 on (25,50], 14 on (50,100],
10 on (100,250], and 5 exactly on ranks above 250. -/
theorem marketScore_rank_brackets (p : CoinGeckoPrice) (st : Option StakingData) :
    (1 ≤ p.marketCapRank ∧ p.marketCapRank ≤ 10 →
      (calculateScore p st).2.marketScore = 25) ∧
    (p.marketCapRank ≤ 0 → (calculateScore p st).2.marketScore = 22) ∧
    (10 < p.marketCapRank ∧ p.marketCapRank ≤ 25 →
      (calculateScore p st).2.marketScore = 22) ∧
    (25 < p.marketCapRank ∧ p.marketCapRank ≤ 50 →
      (calculateScore p st).2.marketScore = 18) ∧
    (50 < p.marketCapRank ∧ p.marketCapRank ≤ 100 →
      (calculateScore p st).2.marketScore = 14) ∧
    (100 < p.marketCapRank ∧ p.marketCapRank ≤ 250 →
      (calculateScore p st).2.marketScore = 10) ∧
    (250 < p.marketCapRank → (calculateScore p st).2.marketScore = 5) := by
  have hms : (calculateScore p st).2.marketScore = marketScoreOf p := rfl
  refine ⟨?_, ?_, ?_, ?_, ?_, ?_, ?_⟩ <;> rw [hms] <;> unfold marketScoreOf
  · rintro ⟨h1, h2⟩
    rw [if_pos ⟨by omega, h2⟩]
  · intro h
    rw [if_neg (by omega), if_pos (by omega)]
  · rintro ⟨h1, h2⟩
    rw [if_neg (by omega), if_pos (by omega)]
  · rintro ⟨h1, h2⟩
    rw [if_neg (by omega), if_neg (by omega), if_pos (by omega)]
  · rintro ⟨h1, h2⟩
    rw [if_neg (by omega), if_neg (by omega), if_neg (by omega), if_pos (by omega)]
  · rintro ⟨h1, h2⟩
    rw [if_neg (by omega), if_neg (by omega), if_neg (by omega), if_neg (by omega),
      if_pos (by omega)]
  · intro h
    rw [if_neg (by omega), if_neg (by omega), if_neg (by omega), if_neg (by omega),
      if_neg (by omega)]

/-- C5 amended, witness: one concrete rank per bracket, including the
amended rank-0 case. -/
theorem marketScore_rank_brackets_witness :
    (calculateScore (rankRecord 5) none).2.marketScore = 25 ∧
    (calculateScore (rankRecord 0) none).2.marketScore = 22 ∧
    (calculateScore (rankRecord 20) none).2.marketScore = 22 ∧
    (calculateScore (rankRecord 40) none).2.marketScore = 18 ∧
    (calculateScore (rankRecord 80) none).2.marketScore = 14 ∧
    (calculateScore (rankRecord 200) none).2.marketScore = 10 ∧
    (calculateScore (rankRecord 300) none).2.marketScore = 5 :=
  ⟨(marketScore_rank_brackets (rankRecord 5) none).1 ⟨by decide, by decide⟩,
   (marketScore_rank_brackets (rankRecord 0) none).2.1 (by decide),
   (marketScore_rank_brackets (rankRecord 20) none).2.2.1 ⟨by decide, by decide⟩,
   (marketScore_rank_brackets (rankRecord 40) none).2.2.2.1 ⟨by decide, by decide⟩,
   (marketScore_rank_brackets (rankRecord 80) none).2.2.2.2.1 ⟨by decide, by decide⟩,
   (marketScore_rank_brackets (rankRecord 200) none).2.2.2.2.2.1 ⟨by decide, by decide⟩,
   (marketScore_rank_brackets (rankRecord 300) none).2.2.2.2.2.2 (by decide)⟩

/-- C7 counterexample: a market cap of exactly $10,000,000,000 receives
Security sub-score 16, not the 20 the claim requires, because the code
uses the strict comparison `MarketCap > 10000000000`. -/
theorem securityScore_boundary_counterexample :
    (calculateScore tenBillionRecord none).2.securityScore = 16 ∧
    (calculateScore tenBillionRecord none).2.securityScore ≠ 20 := by
  decide

/-- C7 amended: the Market-rank and Staking thresholds are inclusive on
the boundary (rank exactly 10 scores 25; APY exactly 10 with ratio
exactly 50 scores 20+5), while the Security, Adoption and Tech thresholds
are strict, so a value exactly on the boundary falls into the lower
bracket (market cap exactly $10B scores 16, ratio exactly 0.10 scores 12,
ATH change exactly -20 scores 12). -/
theorem score_bracket_boundary_semantics (p : CoinGeckoPrice)
    (st : Option StakingData) (sd : StakingData) :
    (p.marketCapRank = 10 → (calculateScore p st).2.marketScore = 25) ∧
    (sd.apy = .finite 10 → sd.stakingRatio = .finite 50 →
      (calculateScore p (some sd)).2.stakingScore = 25) ∧
    (p.marketCap = .finite 10000000000 →
      (calculateScore p st).2.securityScore = 16) ∧
    (p.totalVolume.div p.marketCap = .finite (1/10) →
      (calculateScore p st).2.adoptionScore = 12) ∧
    (p.athChangePercentage = .finite (-20) →
      (calculateScore p st).2.techScore = 12) := by
  refine ⟨?_, ?_, ?_, ?_, ?_⟩
  · intro h
    have hms : (calculateScore p st).2.marketScore = marketScoreOf p := rfl
    rw [hms]
    unfold marketScoreOf
    rw [if_pos (by omega)]
  · intro h1 h2
    have hss : (calculateScore p (some sd)).2.stakingScore = stakingScoreOf (some sd) := rfl
    rw [hss]
    dsimp only [stakingScoreOf]
    rw [h1, h2]
    norm_num [GoFloat.ge]
  · intro h
    have hs : (calculateScore p st).2.securityScore = securityScoreOf p := rfl
    rw [hs]
    unfold securityScoreOf
    rw [h]
    norm_num [GoFloat.gt, GoFloat.lt]
  · intro h
    have ha : (calculateScore p st).2.adoptionScore = adoptionScoreOf p := rfl
    rw [ha]
    unfold adoptionScoreOf
    dsimp only
    rw [h]
    norm_num [GoFloat.gt, GoFloat.lt]
  · intro h
    have ht : (calculateScore p st).2.techScore = techScoreOf p := rfl
    rw [ht]
    unfold techScoreOf
    rw [h]
    norm_num [GoFloat.gt, GoFloat.lt]

/-- C7 amended, witness: the boundary record and boundary staking entry
exercise all five boundary hypotheses at once. -/
theorem score_bracket_boundary_semantics_witness :
    (calculateScore tenBillionRecord (some boundaryStaking)).2.marketScore = 25 ∧
    (calculateScore tenBillionRecord (some boundaryStaking)).2.stakingScore = 25 ∧
    (calculateScore tenBillionRecord (some boundaryStaking)).2.securityScore = 16 ∧
    (calculateScore tenBillionRecord (some boundaryStaking)).2.adoptionScore = 12 ∧
    (calculateScore tenBillionRecord (some boundaryStaking)).2.techScore = 12 :=
  ⟨(score_bracket_boundary_semantics tenBillionRecord (some boundaryStaking) boundaryStaking).1
     rfl,
   (score_bracket_boundary_semantics tenBillionRecord (some boundaryStaking) boundaryStaking).2.1
     rfl rfl,
   (score_bracket_boundary_semantics tenBillionRecord (some boundaryStaking) boundaryStaking).2.2.1
     rfl,
   (score_bracket_boundary_semantics tenBillionRecord (some boundaryStaking) boundaryStaking).2.2.2.1
     (by norm_num [tenBillionRecord, baseRecord, GoFloat.div]),
   (score_bracket_boundary_semantics tenBillionRecord (some boundaryStaking) boundaryStaking).2.2.2.2
     rfl⟩

/-- C1: on a single-key lookup whose upstream fetch fails, a stale cache
entry (age at least the TTL) is returned flagged `cached=true` with no
error and the cache left unchanged; with no entry at all the fetch error
itself is returned and the cache is unchanged, so no entry is created. -/
theorem getPrice_fetch_failure_policy (prices : PriceMap) (now : Int)
    (tok cur : String) (e : FetchError) :
    (∀ c : CachedPrice, assocLookup prices (cacheKey tok cur) = some c →
       cacheTTL ≤ now - c.updatedAt →
       GetPrice prices now tok cur (.error e) =
         (Except.ok (priceRespFromCache tok c), prices) ∧
       (priceRespFromCache tok c).cached = true) ∧
    (assocLookup prices (cacheKey tok cur) = none →
       GetPrice prices now tok cur (.error e) = (Except.error e, prices)) := by
  constructor
  · intro c hc hstale
    unfold GetPrice
    rw [hc]
    dsimp only
    rw [if_neg (not_lt.mpr hstale)]
    exact ⟨rfl, rfl⟩
  · intro hn
    unfold GetPrice
    rw [hn]
    rfl

/-- C1 witness: at `now = cacheTTL` the entry written at 0 is stale and is
served on fetch failure; on the empty cache the transport error comes
back and the cache stays empty. -/
theorem getPrice_fetch_failure_policy_witness :
    GetPrice mapEx cacheTTL "bitcoin" "usd" (.error .transport) =
      (Except.ok (priceRespFromCache "bitcoin" entryEx), mapEx) ∧
    GetPrice [] 0 "bitcoin" "usd" (.error .transport) =
      (Except.error .transport, []) :=
  ⟨((getPrice_fetch_failure_policy mapEx cacheTTL "bitcoin" "usd" .transport).1
      entryEx (by decide) (by decide)).1,
   (getPrice_fetch_failure_policy [] 0 "bitcoin" "usd" .transport).2 (by decide)⟩

/-- C4: on a single-key lookup with a fresh cache entry (age below the
TTL), `GetPrice` returns exactly that entry's fields flagged
`cached=true`, leaves the cache unchanged, and its result does not depend
on the fetch oracle at all — no upstream fetch is consulted. -/
theorem getPrice_fresh_cache_hit (prices : PriceMap) (now : Int)
    (tok cur : String) (fetch : Except FetchError CoinGeckoPrice) (c : CachedPrice) :
    assocLookup prices (cacheKey tok cur) = some c →
    now - c.updatedAt < cacheTTL →
    GetPrice prices now tok cur fetch =
      (Except.ok (priceRespFromCache tok c), prices) ∧
    (priceRespFromCache tok c).cached = true ∧
    (priceRespFromCache tok c).price = c.price ∧
    (priceRespFromCache tok c).currency = c.currency ∧
    (priceRespFromCache tok c).change24h = c.change24h ∧
    (priceRespFromCache tok c).marketCap = c.marketCap ∧
    (priceRespFromCache tok c).volume24h = c.volume24h ∧
    (priceRespFromCache tok c).updatedAt = c.updatedAt ∧
    ∀ fetch' : Except FetchError CoinGeckoPrice,
      GetPrice prices now tok cur fetch = GetPrice prices now tok cur fetch' := by
  intro hc hfresh
  have hmain : ∀ f : Except FetchError CoinGeckoPrice,
      GetPrice prices now tok cur f = (Except.ok (priceRespFromCache tok c), prices) := by
    intro f
    unfold GetPrice
    rw [hc]
    dsimp only
    rw [if_pos hfresh]
  exact ⟨hmain fetch, rfl, rfl, rfl, rfl, rfl, rfl, rfl,
    fun f' => (hmain fetch).trans (hmain f').symm⟩

/-- C4 witness: one nanosecond after the write the entry is fresh, and the
lookup returns it flagged cached without touching the cache, whatever the
oracle would have answered. -/
theorem getPrice_fresh_cache_hit_witness :
    GetPrice mapEx 1 "bitcoin" "usd" (.error .transport) =
      (Except.ok (priceRespFromCache "bitcoin" entryEx), mapEx) ∧
    (priceRespFromCache "bitcoin" entryEx).cached = true :=
  ⟨(getPrice_fresh_cache_hit mapEx 1 "bitcoin" "usd" (.error .transport) entryEx
      (by decide) (by decide)).1,
   (getPrice_fresh_cache_hit mapEx 1 "bitcoin" "usd" (.error .transport) entryEx
      (by decide) (by decide)).2.1⟩

/-- Every response the cache-check phase of `GetMultiplePrices` adds to
the accumulator comes from `priceRespFromCache`, so any cached-flagged
response in it has empty symbol and name. -/
theorem phase1_resp_invariant (prices : PriceMap) (now : Int) (cur : String) :
    ∀ (l : List String) (acc : List (String × PriceResponse) × List String),
      (∀ i r, assocLookup acc.1 i = some r → r.cached = true →
        r.symbol = "" ∧ r.name = "") →
      ∀ i r, assocLookup (l.foldl (cacheCheckStep prices now cur) acc).1 i = some r →
        r.cached = true → r.symbol = "" ∧ r.name = "" := by
  intro l
  induction l with
  | nil => intro acc hacc; simpa using hacc
  | cons a l ih =>
      intro acc hacc
      simp only [List.foldl_cons]
      apply ih
      intro i r hr
      unfold cacheCheckStep at hr
      cases hlk : assocLookup prices (cacheKey a cur) with
      | some cch =>
          rw [hlk] at hr
          dsimp only at hr
          by_cases hf : now - cch.updatedAt < cacheTTL
          · rw [if_pos hf] at hr
            rw [assocLookup_insert] at hr
            by_cases hai : a = i
            · rw [if_pos hai] at hr
              have hre : r = priceRespFromCache a cch := by simpa using hr.symm
              subst hre
              exact fun _ => ⟨rfl, rfl⟩
            · rw [if_neg hai] at hr
              exact hacc i r hr
          · rw [if_neg hf] at hr
            exact hacc i r hr
      | none =>
          rw [hlk] at hr
          exact hacc i r hr

/-- Every response the write-back phase of `GetMultiplePrices` adds is
flagged `cached=false`, so the cached-flagged-implies-empty-names
invariant survives it. -/
theorem phase2_resp_invariant (now : Int) (cur : String) :
    ∀ (ps : List CoinGeckoPrice) (acc : List (String × PriceResponse) × PriceMap),
      (∀ i r, assocLookup acc.1 i = some r → r.cached = true →
        r.symbol = "" ∧ r.name = "") →
      ∀ i r, assocLookup (ps.foldl (writeBackStep now cur) acc).1 i = some r →
        r.cached = true → r.symbol = "" ∧ r.name = "" := by
  intro ps
  induction ps with
  | nil => intro acc hacc; simpa using hacc
  | cons p ps ih =>
      intro acc hacc
      simp only [List.foldl_cons]
      apply ih
      intro i r hr
      unfold writeBackStep at hr
      rw [assocLookup_insert] at hr
      by_cases hpi : p.id = i
      · rw [if_pos hpi] at hr
        have hre : r = freshRespOfFetch now p.id cur p := by simpa using hr.symm
        subst hre
        intro hc
        simp [freshRespOfFetch] at hc
      · rw [if_neg hpi] at hr
        exact hacc i r hr

/-- C10: any response served from the cache (flagged `cached=true`), on
the single-key path or the batch path, carries empty `Symbol` and `Name`:
the cache entry stores neither, and only fetch-built responses (flagged
`cached=false`) carry them. -/
theorem cached_responses_empty_symbol_name :
    (∀ (prices : PriceMap) (now : Int) (tok cur : String)
       (fetch : Except FetchError CoinGeckoPrice) (resp : PriceResponse),
       (GetPrice prices now tok cur fetch).1 = Except.ok resp → resp.cached = true →
       resp.symbol = "" ∧ resp.name = "") ∧
    (∀ (prices : PriceMap) (now : Int) (ids : List String) (cur : String)
       (fO : Except FetchError (List CoinGeckoPrice)) (mpr : MultiPriceResponse)
       (i : String) (resp : PriceResponse),
       (GetMultiplePrices prices now ids cur fO).1 = Except.ok mpr →
       assocLookup mpr.prices i = some resp → resp.cached = true →
       resp.symbol = "" ∧ resp.name = "") := by
  constructor
  · intro prices now tok cur fetch resp hok hcached
    unfold GetPrice at hok
    cases hlk : assocLookup prices (cacheKey tok cur) with
    | some c =>
        rw [hlk] at hok
        dsimp only at hok
        by_cases hf : now - c.updatedAt < cacheTTL
        · rw [if_pos hf] at hok
          have hre : resp = priceRespFromCache tok c := by simpa using hok.symm
          subst hre
          exact ⟨rfl, rfl⟩
        · rw [if_neg hf] at hok
          cases fetch with
          | error e =>
              have hre : resp = priceRespFromCache tok c := by
                simpa [getPriceFetchPath] using hok.symm
              subst hre
              exact ⟨rfl, rfl⟩
          | ok p =>
              have hre : resp = freshRespOfFetch now tok cur p := by
                simpa [getPriceFetchPath] using hok.symm
              subst hre
              simp [freshRespOfFetch] at hcached
    | none =>
        rw [hlk] at hok
        dsimp only at hok
        cases fetch with
        | error e => simp [getPriceFetchPath] at hok
        | ok p =>
            have hre : resp = freshRespOfFetch now tok cur p := by
              simpa [getPriceFetchPath] using hok.symm
            subst hre
            simp [freshRespOfFetch] at hcached
  · intro prices now ids cur fO mpr i resp hok hlk hcached
    unfold GetMultiplePrices at hok
    dsimp only at hok
    have hbase : ∀ (j : String) (r : PriceResponse),
        assocLookup (([] : List (String × PriceResponse)), ([] : List String)).1 j = some r →
        r.cached = true → r.symbol = "" ∧ r.name = "" := by
      intro j r h
      simp [assocLookup] at h
    have hphase1 := phase1_resp_invariant prices now cur ids ([], []) hbase
    split at hok
    · have hm : mpr = ⟨(ids.foldl (cacheCheckStep prices now cur) ([], [])).1, now⟩ := by
        simpa using hok.symm
      subst hm
      exact hphase1 i resp hlk hcached
    · cases fO with
      | error e =>
          have hm : mpr = ⟨(ids.foldl (cacheCheckStep prices now cur) ([], [])).1, now⟩ := by
            simpa using hok.symm
          subst hm
          exact hphase1 i resp hlk hcached
      | ok fetched =>
          have hm : mpr = ⟨(fetched.foldl (writeBackStep now cur)
              ((ids.foldl (cacheCheckStep prices now cur) ([], [])).1, prices)).1, now⟩ := by
            simpa using hok.symm
          subst hm
          exact phase2_resp_invariant now cur fetched
            ((ids.foldl (cacheCheckStep prices now cur) ([], [])).1, prices)
            (fun j r h => hphase1 j r h) i resp hlk hcached

/-- C10 witness: the concrete fresh-hit single lookup and the concrete
one-identifier batch both serve the cached response, and the theorem
yields its empty symbol and name. -/
theorem cached_responses_empty_symbol_name_witness :
    (priceRespFromCache "bitcoin" entryEx).symbol = "" ∧
    (priceRespFromCache "bitcoin" entryEx).name = "" :=
  cached_responses_empty_symbol_name.1 mapEx 1 "bitcoin" "usd"
    (Except.error FetchError.transport) (priceRespFromCache "bitcoin" entryEx)
    (by rfl) (by rfl)

/-- The response map built by the cache-check phase of
`GetMultiplePrices` holds an identifier exactly when it was seen and
servable from fresh cache, or was already in the accumulator. -/
theorem phase1_lookup_isSome (prices : PriceMap) (now : Int) (cur : String) :
    ∀ (l : List String) (acc : List (String × PriceResponse) × List String) (i : String),
      (assocLookup (l.foldl (cacheCheckStep prices now cur) acc).1 i).isSome = true ↔
        ((i ∈ l ∧ freshInCache prices now i cur = true) ∨
          (assocLookup acc.1 i).isSome = true) := by
  intro l
  induction l with
  | nil =>
      intro acc i
      simp
  | cons a l ih =>
      intro acc i
      simp only [List.foldl_cons]
      rw [ih]
      unfold cacheCheckStep
      cases hlk : assocLookup prices (cacheKey a cur) with
      | some cch =>
          dsimp only
          by_cases hf : now - cch.updatedAt < cacheTTL
          · rw [if_pos hf]
            by_cases hai : i = a
            · subst hai
              have hfresh : freshInCache prices now i cur = true := by
                unfold freshInCache
                rw [hlk]
                simpa using hf
              simp [assocLookup_insert, hfresh]
            · have hne : ¬ a = i := fun h => hai h.symm
              simp [assocLookup_insert, hne, hai]
          · rw [if_neg hf]
            by_cases hai : i = a
            · subst hai
              have hfresh : freshInCache prices now i cur = false := by
                unfold freshInCache
                rw [hlk]
                simpa using hf
              simp [hfresh]
            · simp [hai]
      | none =>
          dsimp only
          by_cases hai : i = a
          · subst hai
            have hfresh : freshInCache prices now i cur = false := by
              unfold freshInCache
              rw [hlk]
            simp [hfresh]
          · simp [hai]

/-- C3: when the single batch upstream fetch fails, `GetMultiplePrices`
still returns a non-error result (`Except.ok`, mirroring the source's
unconditional `return response, nil`), the cache is left unchanged, and
the result map holds exactly the identifiers servable from fresh cache —
identifiers that needed a fetch, including ones with stale entries, are
absent (no stale fallback on the batch path). -/
theorem getMultiplePrices_batch_fetch_failure (prices : PriceMap) (now : Int)
    (ids : List String) (cur : String) (e : FetchError) :
    GetMultiplePrices prices now ids cur (.error e) =
      (Except.ok ⟨(ids.foldl (cacheCheckStep prices now cur) ([], [])).1, now⟩, prices) ∧
    ∀ i : String,
      (assocLookup (ids.foldl (cacheCheckStep prices now cur) ([], [])).1 i).isSome = true ↔
        (i ∈ ids ∧ freshInCache prices now i cur = true) := by
  constructor
  · unfold GetMultiplePrices
    dsimp only
    split
    · rfl
    · rfl
  · intro i
    have h := phase1_lookup_isSome prices now cur ids ([], []) i
    simpa [assocLookup] using h

/-- Structural inner-loop length invariant. -/
theorem selectMaxAsset_length (x : MarketAsset) (l : List MarketAsset) :
    (selectMaxAsset x l).2.length = l.length := by
  induction l generalizing x with
  | nil => rfl
  | cons y ys ih =>
      simp only [selectMaxAsset]
      split
      · simp [ih]
      · simp [ih]

/-- The inner loop only permutes: candidate plus leftovers are the input. -/
theorem selectMaxAsset_perm (x : MarketAsset) (l : List MarketAsset) :
    List.Perm ((selectMaxAsset x l).1 :: (selectMaxAsset x l).2) (x :: l) := by
  induction l generalizing x with
  | nil => exact List.Perm.refl _
  | cons y ys ih =>
      simp only [selectMaxAsset]
      split
      · dsimp only
        exact (List.Perm.swap x (selectMaxAsset y ys).1 (selectMaxAsset y ys).2).trans
          ((ih y).cons x)
      · dsimp only
        exact (List.Perm.swap y (selectMaxAsset x ys).1 (selectMaxAsset x ys).2).trans
          (((ih x).cons y).trans (List.Perm.swap x y ys))

/-- The running candidate never shrinks: the final candidate is the
initial one or strictly above it in the float order. -/
theorem selectMaxAsset_fst (x : MarketAsset) (l : List MarketAsset) :
    (selectMaxAsset x l).1 = x ∨
      GoFloat.lt x.score (selectMaxAsset x l).1.score = true := by
  induction l generalizing x with
  | nil => left; rfl
  | cons y ys ih =>
      simp only [selectMaxAsset]
      split
      case isTrue h =>
        dsimp only
        rcases ih y with h1 | h1
        · right; rw [h1]; exact h
        · right; exact GoFloat.lt_trans _ _ _ h h1
      case isFalse h =>
        exact ih x

/-- No leftover element of the inner loop is strictly above the final
candidate (the float order's NaN incomparability included). -/
theorem selectMaxAsset_dom (x : MarketAsset) (l : List MarketAsset) :
    ∀ z ∈ (selectMaxAsset x l).2,
      GoFloat.lt (selectMaxAsset x l).1.score z.score = false := by
  induction l generalizing x with
  | nil => intro z hz; simp [selectMaxAsset] at hz
  | cons y ys ih =>
      intro z hz
      simp only [selectMaxAsset] at hz ⊢
      by_cases h : GoFloat.gt y.score x.score = true
      · rw [if_pos h] at hz ⊢
        dsimp only at hz ⊢
        rcases List.mem_cons.mp hz with hzx | hz'
        · subst hzx
          rcases selectMaxAsset_fst y ys with h1 | h1
          · rw [h1]
            exact GoFloat.lt_asymm _ _ h
          · cases hlt : GoFloat.lt (selectMaxAsset y ys).1.score z.score with
            | false => rfl
            | true =>
                exfalso
                have h2 := GoFloat.lt_trans _ _ _ h1 hlt
                have h3 := GoFloat.lt_asymm _ _ h
                rw [h2] at h3
                exact Bool.noConfusion h3
        · exact ih y z hz'
      · simp only [Bool.not_eq_true] at h
        rw [if_neg (by rw [h]; exact Bool.false_ne_true)] at hz ⊢
        dsimp only at hz ⊢
        rcases List.mem_cons.mp hz with hzy | hz'
        · subst hzy
          have hxz : GoFloat.lt x.score z.score = false := h
          rcases selectMaxAsset_fst x ys with h1 | h1
          · rw [h1]
            exact hxz
          · cases hlt : GoFloat.lt (selectMaxAsset x ys).1.score z.score with
            | false => rfl
            | true =>
                exfalso
                have h2 := GoFloat.lt_trans _ _ _ h1 hlt
                rw [hxz] at h2
                exact Bool.noConfusion h2
        · exact ih x z hz'

/-- The outer loop, given enough fuel, permutes its input. -/
theorem sortGo_perm : ∀ (n : Nat) (l : List MarketAsset), l.length ≤ n →
    List.Perm (sortGo n l) l := by
  intro n
  induction n with
  | zero =>
      intro l hl
      have hnil : l = [] := List.length_eq_zero.mp (Nat.le_zero.mp hl)
      subst hnil
      exact List.Perm.refl _
  | succ n ih =>
      intro l hl
      cases l with
      | nil => exact List.Perm.refl _
      | cons x xs =>
          simp only [sortGo]
          have h2 : (selectMaxAsset x xs).2.length ≤ n := by
            rw [selectMaxAsset_length]
            simpa using hl
          exact ((ih _ h2).cons _).trans (selectMaxAsset_perm x xs)

/-- The outer loop, given enough fuel, leaves no later element strictly
above an earlier one in the float order. -/
theorem sortGo_pairwise : ∀ (n : Nat) (l : List MarketAsset), l.length ≤ n →
    List.Pairwise (fun a b => GoFloat.lt a.score b.score = false) (sortGo n l) := by
  intro n
  induction n with
  | zero => intro l hl; simp [sortGo]
  | succ n ih =>
      intro l hl
      cases l with
      | nil => simp [sortGo]
      | cons x xs =>
          simp only [sortGo]
          have h2 : (selectMaxAsset x xs).2.length ≤ n := by
            rw [selectMaxAsset_length]
            simpa using hl
          refine List.Pairwise.cons ?_ (ih _ h2)
          intro b hb
          have hbmem : b ∈ (selectMaxAsset x xs).2 :=
            (sortGo_perm n _ h2).mem_iff.mp hb
          exact selectMaxAsset_dom x xs b hbmem

/-- C8 counterexample: with fetch order [asA, asB, asC] and tied scores
for asA and asB, the handler's swap sort outputs [asC, asB, asA] — the
two equal-score assets come out in the reverse of their fetch order, so
the ordering is not stable. -/
theorem sortAssets_stability_counterexample :
    sortAssetsByScore [asA, asB, asC] = [asC, asB, asA] ∧
    asA.score = asB.score ∧ asA ≠ asB := by
  decide

/-- C8 amended: the markets handler's sort outputs a permutation of the
fetched assets in descending score order (no later asset has a strictly
greater score than an earlier one), but the ordering is not stable —
equal-score assets may leave their fetch order, as the counterexample
shows. -/
theorem sortAssets_descending_by_score (assets : List MarketAsset) :
    List.Perm (sortAssetsByScore assets) assets ∧
    List.Pairwise (fun a b => GoFloat.gt b.score a.score = false)
      (sortAssetsByScore assets) :=
  ⟨sortGo_perm _ _ le_rfl, sortGo_pairwise _ _ le_rfl⟩
